import Mathlib

/-!
Shallow embedding of `poeditor_query.py`: the `Mapping` entity, the `Mappings`
collection, the language-code reconciliation helpers, and the bulk sync/delete
operations.  External collaborators (the POEditor API client, the filesystem and
the `msgcat` merge utility) are modelled by a `World` record carrying the data
the code reads plus traces of the effectful calls it makes.
-/

/-- Python truthiness for an optional string: `None` and `""` are falsy. -/
def truthyStr (o : Option String) : Bool :=
  match o with
  | none => false
  | some s => !s.isEmpty

/-- Model of Python `s.replace(a, b)` for single-character `a`, `b`:
per-character substitution. -/
def pyReplace (s : String) (a b : Char) : String :=
  ⟨s.data.map (fun ch => if ch == a then b else ch)⟩

/-- Model of Python `s.lower()`; language codes are ASCII, so ASCII
lower-casing (`Char.toLower`) is faithful. -/
def pyLower (s : String) : String :=
  ⟨s.data.map Char.toLower⟩

/-- Model of Python `s.upper()` (ASCII). -/
def pyUpper (s : String) : String :=
  ⟨s.data.map Char.toUpper⟩

/-- Character-level splitter underlying `pySplit`. -/
def pySplitChar (sep : Char) : List Char → List (List Char)
  | [] => [[]]
  | ch :: rest =>
    match pySplitChar sep rest, ch == sep with
    | r, true => [] :: r
    | [], false => [[ch]]
    | g :: gs, false => (ch :: g) :: gs

/-- Model of Python `s.split(sep)` for a single-character separator:
`"".split("-") = [""]`, `"a--b".split("-") = ["a", "", "b"]`. -/
def pySplit (s : String) (sep : Char) : List String :=
  (pySplitChar sep s.data).map (fun l => ⟨l⟩)

/-- Model of Python's `c in s` membership test for a single-character `c`. -/
def pyIn (c : Char) (s : String) : Bool :=
  s.data.contains c

/-- Python's code-point lexicographic string comparison (`<=`), at the
character-list level. -/
def pyStrLeChars : List Char → List Char → Bool
  | [], _ => true
  | _ :: _, [] => false
  | a :: as, b :: bs =>
    if a < b then true else if b < a then false else pyStrLeChars as bs

/-- Model of Python string `<=`. -/
def pyStrLe (s t : String) : Bool :=
  pyStrLeChars s.data t.data

/-- Model of Python `sep.join(parts)`. -/
def pyJoin (sep : String) : List String → String
  | [] => ""
  | [x] => x
  | x :: xs => x ++ sep ++ pyJoin sep xs

/-- The `Mapping` class: sync state of one language.  `_local` is the local
directory name, `_server` the remote code, `_name` the remote display name,
`_server_completed` the completion percentage, `_server_updated` the
last-update timestamp (modelled as a natural number). -/
structure Mapping where
  _local : Option String
  _server : Option String
  _name : Option String
  _server_completed : Option Rat
  _server_updated : Option Nat
deriving DecidableEq

/-- `Mapping.__init__`: all fields `None`. -/
def Mapping.init : Mapping :=
  { _local := none, _server := none, _name := none,
    _server_completed := none, _server_updated := none }

/-- `Mapping.set_local`. -/
def Mapping.set_local (m : Mapping) (l : String) : Mapping :=
  { m with _local := some l }

/-- `Mapping.create_local`. -/
def Mapping.create_local (l : String) : Mapping :=
  Mapping.init.set_local l

/-- `Mapping.set_server`.  The Python signature has defaults
`server_completed=None, server_updated=None`; callers passing only two
arguments therefore reset the last two fields to `None`. -/
def Mapping.set_server (m : Mapping) (server nm : Option String)
    (server_completed : Option Rat) (server_updated : Option Nat) : Mapping :=
  { m with _server := server, _name := nm,
           _server_completed := server_completed, _server_updated := server_updated }

/-- `Mapping.create_server`. -/
def Mapping.create_server (server nm : String) : Mapping :=
  Mapping.init.set_server (some server) (some nm) none none

/-- `Mapping.matches_code`: the code matches the local side after normalizing
separators to underscore and lower-casing, or the server side after
normalizing separators to hyphen and lower-casing.  The Python guards
`if self.local():` / `if self.server():` are truthiness checks. -/
def Mapping.matches_code (m : Mapping) (code : String) : Bool :=
  (truthyStr m._local && (pyLower (m._local.getD "") == pyLower (pyReplace code '-' '_')))
  || (truthyStr m._server && (pyLower (m._server.getD "") == pyLower (pyReplace code '_' '-')))

/-- Body of `Mapping._local_to_server` for a present local code: first fixes
pair containing the code (on either side) wins, else underscores become
hyphens and the result is lower-cased. -/
def local_to_server_code (l : String) (fixes : List (String × String)) : String :=
  match fixes.find? (fun p => p.1 == l || p.2 == l) with
  | some p => p.2
  | none => pyLower (pyReplace l '_' '-')

/-- `Mapping._local_to_server`; `none` models the `AttributeError` raised when
`self.local()` is `None` (a fixes pair never equals `None`). -/
def Mapping._local_to_server (m : Mapping) (fixes : List (String × String)) : Option String :=
  m._local.map (fun l => local_to_server_code l fixes)

/-- Body of `Mapping._server_to_local` for a present server code: first fixes
pair containing the code wins, else split on hyphens, upper-case every segment
after the first, join with underscores. -/
def server_to_local_code (s : String) (fixes : List (String × String)) : String :=
  match fixes.find? (fun p => p.1 == s || p.2 == s) with
  | some p => p.1
  | none =>
    let parts := pySplit s '-'
    pyJoin "_" (parts.take 1 ++ (parts.drop 1).map pyUpper)

/-- `Mapping._server_to_local`; `none` models the `AttributeError` raised when
`self.server()` is `None`. -/
def Mapping._server_to_local (m : Mapping) (fixes : List (String × String)) : Option String :=
  m._server.map (fun s => server_to_local_code s fixes)

/-- One entry of `api.list_project_languages(...)`: a `{code, name, percentage,
updated}` record. -/
structure ServerLanguage where
  code : String
  nm : String
  percentage : Rat
  updated : Nat
deriving DecidableEq

/-- External collaborators (POEditor API client, filesystem, `msgcat`):
the data the program reads, plus traces of the effectful calls it makes. -/
structure World where
  available_languages : List (String × String)
  addable_codes : List String
  existing_paths : List String
  export_result : Nat → String → String × String
  exports : List (Nat × String)
  added : List (Nat × String)
  uploads : List (Nat × String × String)
  deletes : List (Nat × String)
  renames : List (String × String)
  merges : List (String × String)

/-- The local catalog path `(root_path / local / project_name).with_suffix(".po")`
(for a dot-free project name, `with_suffix` appends `".po"`). -/
def poPath (root l pname : String) : String :=
  root ++ "/" ++ l ++ "/" ++ pname ++ ".po"

/-- `Mapping._server_to_name`: first entry of `api.available_languages()` whose
value equals the server code; `none` models the raised `KeyError`. -/
def Mapping._server_to_name (w : World) (server : String) : Option String :=
  (w.available_languages.find? (fun ns => ns.2 == server)).map (·.1)

/-- `Mapping.sync_from_server`: returns `False` when not on the server;
otherwise exports the remote catalog and either installs it (setting
`_local`) or merges it into the existing local file. -/
def Mapping.sync_from_server (m : Mapping) (w : World) (project_id : Nat)
    (project_name root_path : String) (fixes : List (String × String)) :
    Bool × Mapping × World :=
  if !truthyStr m._server then (false, m, w)
  else
    let server := m._server.getD ""
    let (_url, server_po_file) := w.export_result project_id server
    let w := { w with exports := w.exports ++ [(project_id, server)] }
    let l := server_to_local_code server fixes
    let local_po_path := poPath root_path l project_name
    if w.existing_paths.contains local_po_path then
      (true, m, { w with merges := w.merges ++ [(server_po_file, local_po_path)] })
    else
      (true, m.set_local l,
       { w with renames := w.renames ++ [(server_po_file, local_po_path)],
                existing_paths := local_po_path :: w.existing_paths })

/-- `Mapping.sync_to_server`: raises (`.error`) when the language is not
local; creates the language on the server first when needed (recovering with
`False` when the service rejects the code or does not name it); then uploads
the local catalog. -/
def Mapping.sync_to_server (m : Mapping) (w : World) (project_id : Nat)
    (project_name root_path : String) (fixes : List (String × String)) :
    Except String (Bool × Mapping × World) :=
  if !truthyStr m._local then
    .error "Cannot sync to server if language is not local"
  else
    let l := m._local.getD ""
    let local_po_path := poPath root_path l project_name
    let create : Except World (Mapping × World) :=
      if !truthyStr m._server then
        let server := local_to_server_code l fixes
        let w := { w with added := w.added ++ [(project_id, server)] }
        if !w.addable_codes.contains server then
          .error w
        else
          match Mapping._server_to_name w server with
          | none => .error w
          | some nm => .ok (m.set_server (some server) (some nm) none none, w)
      else
        .ok (m, w)
    match create with
    | .error w => .ok (false, m, w)
    | .ok (m, w) =>
      let server := m._server.getD ""
      .ok (true, m,
           { w with uploads := w.uploads ++ [(project_id, server, local_po_path)] })

/-- `Mapping.delete_on_server`: when the server code is set (truthy), request
deletion, clear the remote fields via `set_server(None, None)` (whose defaults
also clear completion and timestamp) and return `True`; otherwise `False`. -/
def Mapping.delete_on_server (m : Mapping) (w : World) (project_id : Nat) :
    Bool × Mapping × World :=
  if truthyStr m._server then
    (true, m.set_server none none none none,
     { w with deletes := w.deletes ++ [(project_id, m._server.getD "")] })
  else
    (false, m, w)

/-- The `Mappings` collection: all mappings of one project plus its
configuration. -/
structure Mappings where
  _mappings : List Mapping
  _project_name : String
  _project_id : Nat
  _language_root_path : String
  _fixes : List (String × String)
deriving DecidableEq

/-- Replace the element at one position of a list (Python mutates the
`Mapping` object in place; here the list entry is replaced). -/
def list_modify (f : Mapping → Mapping) : Nat → List Mapping → List Mapping
  | _, [] => []
  | 0, m :: rest => f m :: rest
  | n + 1, m :: rest => m :: list_modify f n rest

/-- The inner `find_mapping` of `Mappings.get_mapping`: position of the first
mapping matching the code. -/
def find_mapping_idx (ms : List Mapping) (c : String) : Option Nat :=
  match ms with
  | [] => none
  | m :: rest =>
    if m.matches_code c then some 0 else (find_mapping_idx rest c).map (· + 1)

/-- The fixes fallback of `Mappings.get_mapping`: scan the fixes pairs whose
key or value lower-cases to the (lowered) code and return the first hit of
`find_mapping` on the key; the scan continues past keys with no mapping. -/
def fixes_find_idx (ms : List Mapping) (fixes : List (String × String))
    (codeL : String) : Option Nat :=
  match fixes with
  | [] => none
  | p :: rest =>
    if pyLower p.1 == codeL || pyLower p.2 == codeL then
      match find_mapping_idx ms p.1 with
      | some i => some i
      | none => fixes_find_idx ms rest codeL
    else fixes_find_idx ms rest codeL

/-- `Mappings.get_mapping`, as a position in the list; `none` models the
raised `KeyError "code unknown"`. -/
def get_mapping_idx (ms : List Mapping) (fixes : List (String × String))
    (code : String) : Option Nat :=
  match find_mapping_idx ms code with
  | some i => some i
  | none => fixes_find_idx ms fixes (pyLower code)

/-- `project_name_to_id`: first project whose lower-cased name equals the
requested name; `None` when absent. -/
def project_name_to_id (projects : List (String × Nat)) (project_name : String) :
    Option Nat :=
  (projects.find? (fun p => pyLower p.1 == project_name)).map (·.2)

/-- One iteration of the server-languages loop in `Mappings.from_project_name`:
merge the entry into the mapping found by `get_mapping`, or append a new
server-only mapping when `get_mapping` raises `KeyError`. -/
def add_server_language (fixes : List (String × String)) (ms : List Mapping)
    (sl : ServerLanguage) : List Mapping :=
  match get_mapping_idx ms fixes sl.code with
  | some i =>
    list_modify
      (fun m => m.set_server (some sl.code) (some sl.nm) (some sl.percentage) (some sl.updated))
      i ms
  | none => ms ++ [Mapping.create_server sl.code sl.nm]

/-- `Mappings.from_project_name`: resolve the project id, create one
local-only mapping per local language directory, then merge the server
language listing; `.error` models the raised `KeyError` for an unknown
project name. -/
def Mappings.from_project_name (projects : List (String × Nat))
    (server_languages : List ServerLanguage) (project_name : String)
    (local_dirs : List String) (language_root_path : String)
    (fixes : List (String × String)) : Except String Mappings :=
  match project_name_to_id projects project_name with
  | none => .error ("Illegal project name " ++ project_name)
  | some pid =>
    let init := local_dirs.map Mapping.create_local
    let final := server_languages.foldl (fun acc sl => add_server_language fixes acc sl) init
    .ok { _mappings := final, _project_name := project_name, _project_id := pid,
          _language_root_path := language_root_path, _fixes := fixes }

/-- Sort key of the `"l"` branch of `Mappings.iter`:
`m.local() if m.local() else ""`. -/
def localSortKey (m : Mapping) : String :=
  if truthyStr m._local then m._local.getD "" else ""

/-- Sort key of the `"s"` branch of `Mappings.iter`. -/
def serverSortKey (m : Mapping) : String :=
  if truthyStr m._server then m._server.getD "" else ""

/-- Sort key of the `"n"` branch of `Mappings.iter`. -/
def nameSortKey (m : Mapping) : String :=
  if truthyStr m._name then m._name.getD "" else ""

/-- Sort key of the `"p"` branch of `Mappings.iter`:
`m.progress() if m.progress() else 0.0` (a completion of `0.0` is falsy). -/
def progressSortKey (m : Mapping) : Rat :=
  match m._server_completed with
  | some p => if p = 0 then 0 else p
  | none => 0

/-- Sort key of the `"t"` branch of `Mappings.iter`: missing timestamps sort
as the epoch (`datetime.datetime.fromtimestamp(0)`, here `0`). -/
def updatedSortKey (m : Mapping) : Nat :=
  match m._server_updated with
  | some t => t
  | none => 0

/-- The filtering stage of `Mappings.iter`: a falsy filter (`None` or the
empty list) selects everything, otherwise a mapping is kept when any filter
code matches it. -/
def Mappings.select_mappings (ms : List Mapping)
    (language_filter : Option (List String)) : List Mapping :=
  match language_filter with
  | some fs =>
    if fs.isEmpty then ms
    else ms.filter (fun m => fs.any (fun f => m.matches_code f))
  | none => ms

/-- `Mappings.iter`: filter, then stable-ascending sort (`list.sort(key=...)`)
by the single requested key, then optional reversal. -/
def Mappings.iter (ms : List Mapping) (language_filter : Option (List String))
    (sort_specs : String) : List Mapping :=
  let result := Mappings.select_mappings ms language_filter
  let result :=
    if pyIn 'l' sort_specs then
      List.insertionSort (fun a b => pyStrLe (localSortKey a) (localSortKey b) = true) result
    else if pyIn 's' sort_specs then
      List.insertionSort (fun a b => pyStrLe (serverSortKey a) (serverSortKey b) = true) result
    else if pyIn 'n' sort_specs then
      List.insertionSort (fun a b => pyStrLe (nameSortKey a) (nameSortKey b) = true) result
    else if pyIn 'p' sort_specs then
      List.insertionSort (fun a b => progressSortKey a ≤ progressSortKey b) result
    else if pyIn 't' sort_specs then
      List.insertionSort (fun a b => updatedSortKey a ≤ updatedSortKey b) result
    else result
  if pyIn 'r' sort_specs then result.reverse else result

/-- `Mappings.print_table`: counts the selected mappings and never fails. -/
def Mappings.print_table (mss : Mappings) (language_filter : Option (List String))
    (sort_specs : String) : Nat × List Mapping :=
  ((Mappings.iter mss._mappings language_filter sort_specs).length, [])

/-- The loop of `Mappings.sync_from_server`: run the per-mapping download on
each selected mapping in order, counting attempts and collecting failures.
The updated mappings and the final world are returned as well (Python mutates
them in place). -/
def sync_from_loop (pid : Nat) (pname root : String)
    (fixes : List (String × String)) :
    List Mapping → World → Nat × List Mapping × List Mapping × World
  | [], w => (0, [], [], w)
  | m :: rest, w =>
    let (res, m', w') := m.sync_from_server w pid pname root fixes
    let (nb, fails, ms', w'') := sync_from_loop pid pname root fixes rest w'
    (nb + 1, (if res then fails else m' :: fails), m' :: ms', w'')

/-- `Mappings.sync_from_server` (the bulk operation). -/
def Mappings.sync_from_server (mss : Mappings) (w : World)
    (language_filter : Option (List String)) (sort_specs : String) :
    Nat × List Mapping × List Mapping × World :=
  sync_from_loop mss._project_id mss._project_name mss._language_root_path mss._fixes
    (Mappings.iter mss._mappings language_filter sort_specs) w

/-- The loop of `Mappings.sync_to_server`; a raise from the per-mapping
upload propagates and aborts the whole loop. -/
def sync_to_loop (pid : Nat) (pname root : String)
    (fixes : List (String × String)) :
    List Mapping → World → Except String (Nat × List Mapping × List Mapping × World)
  | [], w => .ok (0, [], [], w)
  | m :: rest, w =>
    match m.sync_to_server w pid pname root fixes with
    | .error e => .error e
    | .ok (res, m', w') =>
      match sync_to_loop pid pname root fixes rest w' with
      | .error e => .error e
      | .ok (nb, fails, ms', w'') =>
        .ok (nb + 1, (if res then fails else m' :: fails), m' :: ms', w'')

/-- `Mappings.sync_to_server` (the bulk operation). -/
def Mappings.sync_to_server (mss : Mappings) (w : World)
    (language_filter : Option (List String)) (sort_specs : String) :
    Except String (Nat × List Mapping × List Mapping × World) :=
  sync_to_loop mss._project_id mss._project_name mss._language_root_path mss._fixes
    (Mappings.iter mss._mappings language_filter sort_specs) w

/-- The loop of `Mappings.delete_on_server` (after confirmation). -/
def delete_loop (pid : Nat) :
    List Mapping → World → Nat × List Mapping × List Mapping × World
  | [], w => (0, [], [], w)
  | m :: rest, w =>
    let (res, m', w') := m.delete_on_server w pid
    let (nb, fails, ms', w'') := delete_loop pid rest w'
    (nb + 1, (if res then fails else m' :: fails), m' :: ms', w'')

/-- `Mappings.delete_on_server` (the bulk operation).  `confirm_input` models
the operator's `input(...)` answer; when its lower-casing differs from the
stored project name the operation is cancelled, returning `None` (first
component) with the world untouched. -/
def Mappings.delete_on_server (mss : Mappings) (w : World)
    (language_filter : Option (List String)) (sort_specs : String)
    (confirm_input : String) :
    Option (Nat × List Mapping × List Mapping) × World :=
  if pyLower confirm_input != mss._project_name then (none, w)
  else
    let (nb, fails, ms', w') :=
      delete_loop mss._project_id
        (Mappings.iter mss._mappings language_filter sort_specs) w
    (some (nb, fails, ms'), w')

/-- Specification combinator: the sequence of `(result, updated mapping)`
pairs produced by running a world-threading boolean operation over a list of
mappings in order. -/
def runBoolOps (op : Mapping → World → Bool × Mapping × World) :
    List Mapping → World → List (Bool × Mapping)
  | [], _ => []
  | m :: rest, w =>
    let (r, m', w') := op m w
    (r, m') :: runBoolOps op rest w'

/-- Specification combinator, fallible version: outcome sequence of a
world-threading operation that may raise. -/
def runExceptOps (op : Mapping → World → Except String (Bool × Mapping × World)) :
    List Mapping → World → Except String (List (Bool × Mapping))
  | [], _ => .ok []
  | m :: rest, w =>
    match op m w with
    | .error e => .error e
    | .ok (r, m', w') => (runExceptOps op rest w').map (fun l => (r, m') :: l)

/-- A bulk result `(nb, fails, ms')` agrees with an outcome sequence when the
count is the number of selected mappings, the failures are exactly the
(updated) mappings whose operation reported `false`, in order, and the
updated mappings line up with the outcomes. -/
def BulkAgrees (nb : Nat) (fails ms' : List Mapping) (sel : List Mapping)
    (outs : List (Bool × Mapping)) : Prop :=
  nb = sel.length ∧ fails = (outs.filter (fun p => !p.1)).map (·.2)
    ∧ ms' = outs.map (·.2)

/-- Fallible-bulk agreement: the bulk result is a success whose components
agree with the outcome sequence (both must succeed together). -/
def BulkAgreesE (r : Except String (Nat × List Mapping × List Mapping × World))
    (sel : List Mapping)
    (outs : Except String (List (Bool × Mapping))) : Prop :=
  match r, outs with
  | .ok (nb, fails, ms', _), .ok os => BulkAgrees nb fails ms' sel os
  | _, _ => False

/-- Optional-bulk agreement: the bulk delete proceeded (did not abort) and
its components agree with the outcome sequence. -/
def BulkAgreesO (r : Option (Nat × List Mapping × List Mapping))
    (sel : List Mapping) (outs : List (Bool × Mapping)) : Prop :=
  match r with
  | some (nb, fails, ms') => BulkAgrees nb fails ms' sel outs
  | none => False

/-- The collection produced by a concrete successful build. -/
def mssW : Mappings :=
  { _mappings :=
      [{ _local := some "en", _server := some "en", _name := some "English",
         _server_completed := some 50, _server_updated := some 100 },
       Mapping.create_local "fr"],
    _project_name := "p", _project_id := 1, _language_root_path := "r",
    _fixes := [] }

/-- A world with empty traces, used by the concrete evaluations. -/
def wEmpty : World :=
  { available_languages := [("English", "en"), ("Spanish", "es")],
    addable_codes := ["en", "es"], existing_paths := [],
    export_result := fun _ _ => ("u", "f"), exports := [], added := [],
    uploads := [], deletes := [], renames := [], merges := [] }

/-- A collection holding one remote-only mapping, for the delete evaluation. -/
def mssDel : Mappings :=
  { _mappings := [Mapping.create_server "en" "English"],
    _project_name := "subdownloader", _project_id := 7,
    _language_root_path := "r", _fixes := [] }

/-- A mapping with a local code, for the sort counterexample. -/
def mAA : Mapping := Mapping.create_local "aa"

/-- A mapping with no local code, for the sort counterexample. -/
def mNoLocal : Mapping := Mapping.create_server "zz" "Zulu"

/-- A collection with one local-only and one remote-only mapping. -/
def mssC2 : Mappings :=
  { _mappings := [Mapping.create_local "en", Mapping.create_server "es" "Spanish"],
    _project_name := "p", _project_id := 1, _language_root_path := "r",
    _fixes := [] }

/-- A collection with a single local-only mapping. -/
def mssUp : Mappings :=
  { _mappings := [Mapping.create_local "en"],
    _project_name := "p", _project_id := 1, _language_root_path := "r",
    _fixes := [] }

/-- The collection invariant: at most one mapping matches any given code. -/
def UniqueByCode (ms : List Mapping) : Prop :=
  ∀ (i j : Nat) (hi : i < ms.length) (hj : j < ms.length) (c : String),
    (ms.get ⟨i, hi⟩).matches_code c = true →
    (ms.get ⟨j, hj⟩).matches_code c = true → i = j

/-- `Char.ofNat` on a valid codepoint round-trips through `toNat`. -/
theorem char_toNat_ofNat (n : Nat) (h : n.isValidChar) : (Char.ofNat n).toNat = n := by
  unfold Char.ofNat
  rw [dif_pos h]
  rfl

/-- ASCII lower-casing never produces `'-'` from another character. -/
theorem toLower_ne_dash {ch : Char} (h : ch ≠ '-') : Char.toLower ch ≠ '-' := by
  show (if ch.toNat ≥ 65 ∧ ch.toNat ≤ 90 then Char.ofNat (ch.toNat + 32) else ch) ≠ '-'
  split
  · intro he
    rename_i hcond
    have hv : (Char.toNat ch + 32).isValidChar := Or.inl (by omega)
    have ht := congrArg Char.toNat he
    rw [char_toNat_ofNat _ hv] at ht
    have hd : Char.toNat '-' = 45 := by decide
    rw [hd] at ht
    omega
  · exact h

/-- ASCII lower-casing never produces `'_'` from another character. -/
theorem toLower_ne_underscore {ch : Char} (h : ch ≠ '_') : Char.toLower ch ≠ '_' := by
  show (if ch.toNat ≥ 65 ∧ ch.toNat ≤ 90 then Char.ofNat (ch.toNat + 32) else ch) ≠ '_'
  split
  · intro he
    rename_i hcond
    have hv : (Char.toNat ch + 32).isValidChar := Or.inl (by omega)
    have ht := congrArg Char.toNat he
    rw [char_toNat_ofNat _ hv] at ht
    have hd : Char.toNat '_' = 95 := by decide
    rw [hd] at ht
    omega
  · exact h

/-- Lower-casing commutes with the hyphen-to-underscore substitution. -/
theorem lower_dash_comm (ch : Char) :
    Char.toLower (if ch == '-' then '_' else ch)
      = (if Char.toLower ch == '-' then '_' else Char.toLower ch) := by
  by_cases h : ch = '-'
  · subst h; decide
  · have h2 := toLower_ne_dash h
    rw [if_neg (by simpa using h), if_neg (by simpa using h2)]

/-- Lower-casing commutes with the underscore-to-hyphen substitution. -/
theorem lower_underscore_comm (ch : Char) :
    Char.toLower (if ch == '_' then '-' else ch)
      = (if Char.toLower ch == '_' then '-' else Char.toLower ch) := by
  by_cases h : ch = '_'
  · subst h; decide
  · have h2 := toLower_ne_underscore h
    rw [if_neg (by simpa using h), if_neg (by simpa using h2)]

/-- Hyphen normalization after underscore normalization and lower-casing
collapses to hyphen normalization with lower-casing. -/
theorem dash_lower_underscore (ch : Char) :
    (if Char.toLower (if ch == '_' then '-' else ch) == '-' then '_'
     else Char.toLower (if ch == '_' then '-' else ch))
      = Char.toLower (if ch == '-' then '_' else ch) := by
  by_cases h1 : ch = '_'
  · subst h1; decide
  · by_cases h2 : ch = '-'
    · subst h2; decide
    · have h3 := toLower_ne_dash h2
      have hinner : (if ch == '_' then '-' else ch) = ch := if_neg (by simpa using h1)
      rw [hinner, if_neg (by simpa using h3), if_neg (by simpa using h2)]

/-- Underscore normalization is idempotent across lower-casing. -/
theorem underscore_lower_underscore (ch : Char) :
    (if Char.toLower (if ch == '_' then '-' else ch) == '_' then '-'
     else Char.toLower (if ch == '_' then '-' else ch))
      = Char.toLower (if ch == '_' then '-' else ch) := by
  by_cases h1 : ch = '_'
  · subst h1; decide
  · have h3 := toLower_ne_underscore h1
    have hinner : (if ch == '_' then '-' else ch) = ch := if_neg (by simpa using h1)
    rw [hinner, if_neg (by simpa using h3)]

/-- If `s` equals the hyphen-normalized lower-casing of `c`, then `s` and `c`
agree after underscore normalization and lower-casing. -/
theorem pyLower_replace_dash_transfer {s c : String}
    (hs : pyLower s = pyLower (pyReplace c '_' '-')) :
    pyLower (pyReplace s '-' '_') = pyLower (pyReplace c '-' '_') := by
  apply String.ext
  have hd : List.map Char.toLower s.data
      = List.map Char.toLower (List.map (fun x => if x == '_' then '-' else x) c.data) :=
    congrArg String.data hs
  show List.map Char.toLower (List.map (fun x => if x == '-' then '_' else x) s.data)
      = List.map Char.toLower (List.map (fun x => if x == '-' then '_' else x) c.data)
  calc List.map Char.toLower (List.map (fun x => if x == '-' then '_' else x) s.data)
      = List.map (fun x => Char.toLower (if x == '-' then '_' else x)) s.data := by
        simp only [List.map_map, Function.comp_def]
    _ = List.map (fun x => if Char.toLower x == '-' then '_' else Char.toLower x) s.data :=
        List.map_congr_left (fun a _ => lower_dash_comm a)
    _ = List.map (fun x => if x == '-' then '_' else x) (List.map Char.toLower s.data) := by
        simp only [List.map_map, Function.comp_def]
    _ = List.map (fun x => if x == '-' then '_' else x)
          (List.map Char.toLower (List.map (fun x => if x == '_' then '-' else x) c.data)) := by
        rw [hd]
    _ = List.map (fun x =>
          if Char.toLower (if x == '_' then '-' else x) == '-' then '_'
          else Char.toLower (if x == '_' then '-' else x)) c.data := by
        simp only [List.map_map, Function.comp_def]
    _ = List.map (fun x => Char.toLower (if x == '-' then '_' else x)) c.data :=
        List.map_congr_left (fun a _ => dash_lower_underscore a)
    _ = List.map Char.toLower (List.map (fun x => if x == '-' then '_' else x) c.data) := by
        simp only [List.map_map, Function.comp_def]

/-- If `s` equals the hyphen-normalized lower-casing of `c`, then `s` and `c`
agree after hyphen normalization and lower-casing. -/
theorem pyLower_replace_underscore_transfer {s c : String}
    (hs : pyLower s = pyLower (pyReplace c '_' '-')) :
    pyLower (pyReplace s '_' '-') = pyLower (pyReplace c '_' '-') := by
  apply String.ext
  have hd : List.map Char.toLower s.data
      = List.map Char.toLower (List.map (fun x => if x == '_' then '-' else x) c.data) :=
    congrArg String.data hs
  show List.map Char.toLower (List.map (fun x => if x == '_' then '-' else x) s.data)
      = List.map Char.toLower (List.map (fun x => if x == '_' then '-' else x) c.data)
  calc List.map Char.toLower (List.map (fun x => if x == '_' then '-' else x) s.data)
      = List.map (fun x => Char.toLower (if x == '_' then '-' else x)) s.data := by
        simp only [List.map_map, Function.comp_def]
    _ = List.map (fun x => if Char.toLower x == '_' then '-' else Char.toLower x) s.data :=
        List.map_congr_left (fun a _ => lower_underscore_comm a)
    _ = List.map (fun x => if x == '_' then '-' else x) (List.map Char.toLower s.data) := by
        simp only [List.map_map, Function.comp_def]
    _ = List.map (fun x => if x == '_' then '-' else x)
          (List.map Char.toLower (List.map (fun x => if x == '_' then '-' else x) c.data)) := by
        rw [hd]
    _ = List.map (fun x =>
          if Char.toLower (if x == '_' then '-' else x) == '_' then '-'
          else Char.toLower (if x == '_' then '-' else x)) c.data := by
        simp only [List.map_map, Function.comp_def]
    _ = List.map (fun x => Char.toLower (if x == '_' then '-' else x)) c.data :=
        List.map_congr_left (fun a _ => underscore_lower_underscore a)
    _ = List.map Char.toLower (List.map (fun x => if x == '_' then '-' else x) c.data) := by
        simp only [List.map_map, Function.comp_def]

/-- A mapping that matches code `c` also matches any code `s` that equals
the (hyphen-normalized, lower-cased) form of `c` — the equation satisfied by
the server code merged for `c`. -/
theorem matches_transfer {m : Mapping} {c s : String}
    (hm : m.matches_code c = true)
    (hs : pyLower s = pyLower (pyReplace c '_' '-')) :
    m.matches_code s = true := by
  unfold Mapping.matches_code at hm ⊢
  simp only [Bool.or_eq_true, Bool.and_eq_true, beq_iff_eq] at hm ⊢
  rcases hm with ⟨ht, he⟩ | ⟨ht, he⟩
  · exact Or.inl ⟨ht, he.trans (pyLower_replace_dash_transfer hs).symm⟩
  · exact Or.inr ⟨ht, he.trans (pyLower_replace_underscore_transfer hs).symm⟩

/-- When `find_mapping` returns nothing, no mapping in the list matches. -/
theorem find_mapping_idx_none {c : String} :
    ∀ {ms : List Mapping}, find_mapping_idx ms c = none →
      ∀ (i : Nat) (hi : i < ms.length), (ms.get ⟨i, hi⟩).matches_code c = false := by
  intro ms
  induction ms with
  | nil => intro _ i hi; simp at hi
  | cons m rest ih =>
    intro h i hi
    unfold find_mapping_idx at h
    by_cases hm : m.matches_code c = true
    · rw [if_pos hm] at h; cases h
    · rw [if_neg hm] at h
      match i with
      | 0 => simpa using hm
      | n + 1 =>
        have hrest : find_mapping_idx rest c = none := by
          cases hf : find_mapping_idx rest c with
          | none => rfl
          | some j => rw [hf] at h; cases h
        exact ih hrest n (by simpa using hi)

/-- When `find_mapping` returns a position, that position is in range and the
mapping there matches. -/
theorem find_mapping_idx_some {c : String} :
    ∀ {ms : List Mapping} {i : Nat}, find_mapping_idx ms c = some i →
      ∃ hi : i < ms.length, (ms.get ⟨i, hi⟩).matches_code c = true := by
  intro ms
  induction ms with
  | nil => intro i h; cases h
  | cons m rest ih =>
    intro i h
    unfold find_mapping_idx at h
    by_cases hm : m.matches_code c = true
    · rw [if_pos hm] at h
      cases h
      exact ⟨by simp, hm⟩
    · rw [if_neg hm] at h
      rcases Option.map_eq_some'.mp h with ⟨j, hj, rfl⟩
      rcases ih hj with ⟨hlt, hmat⟩
      exact ⟨by simpa using Nat.succ_lt_succ hlt, hmat⟩

/-- A hit of the fixes fallback is a hit of `find_mapping` on some key. -/
theorem fixes_find_idx_some {ms : List Mapping} {codeL : String} :
    ∀ {fixes : List (String × String)} {i : Nat},
      fixes_find_idx ms fixes codeL = some i →
      ∃ k, find_mapping_idx ms k = some i := by
  intro fixes
  induction fixes with
  | nil => intro i h; cases h
  | cons p rest ih =>
    intro i h
    unfold fixes_find_idx at h
    by_cases hc : (pyLower p.1 == codeL || pyLower p.2 == codeL) = true
    · rw [if_pos hc] at h
      cases hf : find_mapping_idx ms p.1 with
      | some j => rw [hf] at h; cases h; exact ⟨p.1, hf⟩
      | none => rw [hf] at h; exact ih h
    · rw [if_neg hc] at h
      exact ih h

/-- `list_modify` preserves length. -/
theorem list_modify_length (f : Mapping → Mapping) :
    ∀ (i : Nat) (ms : List Mapping), (list_modify f i ms).length = ms.length := by
  intro i ms
  induction ms generalizing i with
  | nil => cases i <;> rfl
  | cons m rest ih => cases i with
    | zero => rfl
    | succ n =>
      show (m :: list_modify f n rest).length = rest.length + 1
      simp [ih n]

/-- Entries of a `list_modify`: the modified position holds the image, every
other position is unchanged. -/
theorem list_modify_get (f : Mapping → Mapping) :
    ∀ (ms : List Mapping) (i j : Nat) (hj : j < ms.length)
      (hj2 : j < (list_modify f i ms).length),
      (list_modify f i ms).get ⟨j, hj2⟩
        = if j = i then f (ms.get ⟨j, hj⟩) else ms.get ⟨j, hj⟩ := by
  intro ms
  induction ms with
  | nil => intro i j hj _; simp at hj
  | cons m rest ih =>
    intro i j hj hj2
    cases i with
    | zero =>
      cases j with
      | zero => rfl
      | succ n => rw [if_neg (Nat.succ_ne_zero n)]; rfl
    | succ k =>
      cases j with
      | zero => rw [if_neg (Ne.symm (Nat.succ_ne_zero k))]; rfl
      | succ n =>
        have hn : n < rest.length := by simpa using hj
        have hn2 : n < (list_modify f k rest).length := by
          rw [list_modify_length]
          simpa using hj
        have h' := ih k n hn hn2
        show (list_modify f k rest).get ⟨n, hn2⟩ = _
        rw [h']
        by_cases he : n = k
        · rw [if_pos he, if_pos (by omega)]; rfl
        · rw [if_neg he, if_neg (by omega)]; rfl

/-- Entries of `ms ++ [x]`: positions inside `ms` are unchanged, the last
position holds `x`. -/
theorem get_append_last (x : Mapping) :
    ∀ (ms : List Mapping) (i : Nat) (hi : i < (ms ++ [x]).length),
      (ms ++ [x]).get ⟨i, hi⟩
        = if h : i < ms.length then ms.get ⟨i, h⟩ else x := by
  intro ms
  induction ms with
  | nil =>
    intro i hi
    have hz : i = 0 := by simp at hi; omega
    subst hz
    rw [dif_neg (by simp)]
    rfl
  | cons m rest ih =>
    intro i hi
    cases i with
    | zero => rw [dif_pos (by simp)]; rfl
    | succ n =>
      have hn : n < (rest ++ [x]).length := by simpa using hi
      have h' := ih n hn
      show (rest ++ [x]).get ⟨n, hn⟩ = _
      rw [h']
      by_cases he : n < rest.length
      · rw [dif_pos he, dif_pos (by simpa using Nat.succ_lt_succ he)]; rfl
      · rw [dif_neg he, dif_neg (fun hh => he (by simpa using Nat.lt_of_succ_lt_succ hh))]

/-- Indexing a mapped list. -/
theorem get_map_idx {α β : Type} (f : α → β) :
    ∀ (l : List α) (i : Nat) (hi : i < (l.map f).length) (hi' : i < l.length),
      (l.map f).get ⟨i, hi⟩ = f (l.get ⟨i, hi'⟩) := by
  intro l
  induction l with
  | nil => intro i hi _; simp at hi
  | cons x rest ih =>
    intro i hi hi'
    cases i with
    | zero => rfl
    | succ n => exact ih n (by simpa using hi) (by simpa using hi')

/-- `get_mapping` misses only when the direct `find_mapping` scan misses. -/
theorem get_mapping_idx_none_find {ms : List Mapping}
    {fixes : List (String × String)} {code : String}
    (h : get_mapping_idx ms fixes code = none) :
    find_mapping_idx ms code = none := by
  unfold get_mapping_idx at h
  cases hf : find_mapping_idx ms code with
  | none => rfl
  | some i => rw [hf] at h; cases h

/-- A `get_mapping` hit is either a direct hit on the code, or (when the
direct scan misses) a hit on some fixes key. -/
theorem get_mapping_idx_some_cases {ms : List Mapping}
    {fixes : List (String × String)} {code : String} {i : Nat}
    (h : get_mapping_idx ms fixes code = some i) :
    find_mapping_idx ms code = some i ∨
      (find_mapping_idx ms code = none ∧ ∃ k, find_mapping_idx ms k = some i) := by
  unfold get_mapping_idx at h
  cases hf : find_mapping_idx ms code with
  | some j => rw [hf] at h; cases h; exact Or.inl rfl
  | none => rw [hf] at h; exact Or.inr ⟨rfl, fixes_find_idx_some h⟩

/-- What it means for a local-only mapping to match a code. -/
theorem create_local_matches {d c : String}
    (h : (Mapping.create_local d).matches_code c = true) :
    pyLower d = pyLower (pyReplace c '-' '_') := by
  simp only [Mapping.matches_code, Mapping.create_local, Mapping.set_local,
    Mapping.init, truthyStr, Option.getD_some, Bool.false_and, Bool.or_false,
    Bool.and_eq_true, beq_iff_eq] at h
  exact h.2

/-- What it means for a server-only mapping to match a code. -/
theorem create_server_matches {sv nm c : String}
    (h : (Mapping.create_server sv nm).matches_code c = true) :
    pyLower sv = pyLower (pyReplace c '_' '-') := by
  simp only [Mapping.matches_code, Mapping.create_server, Mapping.set_server,
    Mapping.init, truthyStr, Option.getD_some, Bool.false_and, Bool.false_or,
    Bool.and_eq_true, beq_iff_eq] at h
  exact h.2

/-- A match against a mapping whose server side was just overwritten comes
either from the (unchanged) local side — so the original mapping matched —
or from the new server code. -/
theorem set_server_matches {m : Mapping} {sv nm : String} {pct : Option Rat}
    {upd : Option Nat} {c : String}
    (h : (m.set_server (some sv) (some nm) pct upd).matches_code c = true) :
    m.matches_code c = true ∨ pyLower sv = pyLower (pyReplace c '_' '-') := by
  simp only [Mapping.matches_code, Mapping.set_server, truthyStr, Option.getD_some,
    Bool.or_eq_true, Bool.and_eq_true, beq_iff_eq] at h ⊢
  rcases h with hl | ⟨_, he⟩
  · exact Or.inl (Or.inl hl)
  · exact Or.inr he

/-- Core of the preservation argument: after merging server code `sl.code`
into position `i`, a different position matching the same code as position
`i` would already have matched `sl.code` before the merge, contradicting
either uniqueness or the miss of the direct scan. -/
theorem merge_collision {ms : List Mapping} {fixes : List (String × String)}
    {sl : ServerLanguage} {i b : Nat} {c : String}
    (hu : UniqueByCode ms)
    (hg : get_mapping_idx ms fixes sl.code = some i)
    (hi : i < ms.length) (hb : b < ms.length) (hbi : b ≠ i)
    (hma : ((ms.get ⟨i, hi⟩).set_server (some sl.code) (some sl.nm)
        (some sl.percentage) (some sl.updated)).matches_code c = true)
    (hmb : (ms.get ⟨b, hb⟩).matches_code c = true) : False := by
  rcases set_server_matches hma with hold | hs
  · exact hbi ((hu i b hi hb c hold hmb).symm)
  · have hbs : (ms.get ⟨b, hb⟩).matches_code sl.code = true := matches_transfer hmb hs
    rcases get_mapping_idx_some_cases hg with hf | ⟨hf, _⟩
    · rcases find_mapping_idx_some hf with ⟨hi2, hmi⟩
      exact hbi ((hu i b hi2 hb sl.code hmi hbs).symm)
    · have hno := find_mapping_idx_none hf b hb
      rw [hno] at hbs
      cases hbs

/-- Merging one server-language entry preserves the uniqueness invariant. -/
theorem add_server_language_preserves {fixes : List (String × String)}
    {ms : List Mapping} {sl : ServerLanguage}
    (hu : UniqueByCode ms) :
    UniqueByCode (add_server_language fixes ms sl) := by
  unfold add_server_language
  cases hg : get_mapping_idx ms fixes sl.code with
  | some i =>
    intro a b ha hb c hma hmb
    have hi : i < ms.length := by
      rcases get_mapping_idx_some_cases hg with hf | ⟨_, _, hf⟩ <;>
        · rcases find_mapping_idx_some hf with ⟨h2, _⟩; exact h2
    have ha' : a < ms.length := by
      rw [list_modify_length] at ha; exact ha
    have hb' : b < ms.length := by
      rw [list_modify_length] at hb; exact hb
    rw [list_modify_get _ ms i a ha' ha] at hma
    rw [list_modify_get _ ms i b hb' hb] at hmb
    by_cases haI : a = i <;> by_cases hbI : b = i
    · rw [haI, hbI]
    · rw [if_pos haI] at hma
      rw [if_neg hbI] at hmb
      subst haI
      exact (merge_collision hu hg ha' hb' hbI hma hmb).elim
    · rw [if_neg haI] at hma
      rw [if_pos hbI] at hmb
      subst hbI
      exact (merge_collision hu hg hb' ha' haI hmb hma).elim
    · rw [if_neg haI] at hma
      rw [if_neg hbI] at hmb
      exact hu a b ha' hb' c hma hmb
  | none =>
    intro a b ha hb c hma hmb
    have hfn : find_mapping_idx ms sl.code = none := get_mapping_idx_none_find hg
    have hla : a < ms.length + 1 := by
      have ha2 : a < (ms ++ [Mapping.create_server sl.code sl.nm]).length := ha
      simpa using ha2
    have hlb : b < ms.length + 1 := by
      have hb2 : b < (ms ++ [Mapping.create_server sl.code sl.nm]).length := hb
      simpa using hb2
    rw [get_append_last] at hma hmb
    by_cases haI : a < ms.length <;> by_cases hbI : b < ms.length
    · rw [dif_pos haI] at hma
      rw [dif_pos hbI] at hmb
      exact hu a b haI hbI c hma hmb
    · rw [dif_pos haI] at hma
      rw [dif_neg hbI] at hmb
      have hs := create_server_matches hmb
      have has : (ms.get ⟨a, haI⟩).matches_code sl.code = true := matches_transfer hma hs
      have hno := find_mapping_idx_none hfn a haI
      rw [hno] at has
      cases has
    · rw [dif_neg haI] at hma
      rw [dif_pos hbI] at hmb
      have hs := create_server_matches hma
      have hbs : (ms.get ⟨b, hbI⟩).matches_code sl.code = true := matches_transfer hmb hs
      have hno := find_mapping_idx_none hfn b hbI
      rw [hno] at hbs
      cases hbs
    · omega

/-- Folding the server-language listing preserves uniqueness. -/
theorem foldl_add_server_unique {fixes : List (String × String)} :
    ∀ (sls : List ServerLanguage) (ms : List Mapping), UniqueByCode ms →
      UniqueByCode (sls.foldl (fun acc sl => add_server_language fixes acc sl) ms) := by
  intro sls
  induction sls with
  | nil => intro ms h; exact h
  | cons sl rest ih => intro ms h; exact ih _ (add_server_language_preserves h)

/-- The local-only seed collection is unique provided the local directory
names are pairwise distinct after lower-casing. -/
theorem initial_unique {dirs : List String}
    (hnd : (dirs.map pyLower).Nodup) :
    UniqueByCode (dirs.map Mapping.create_local) := by
  intro i j hi hj c hmi hmj
  have hi' : i < dirs.length := by simpa using hi
  have hj' : j < dirs.length := by simpa using hj
  rw [get_map_idx _ dirs i hi hi'] at hmi
  rw [get_map_idx _ dirs j hj hj'] at hmj
  have ei := create_local_matches hmi
  have ej := create_local_matches hmj
  have hmap : i < (dirs.map pyLower).length := by simpa using hi'
  have hmap' : j < (dirs.map pyLower).length := by simpa using hj'
  have hgij : (dirs.map pyLower).get ⟨i, hmap⟩ = (dirs.map pyLower).get ⟨j, hmap'⟩ := by
    rw [get_map_idx _ dirs i hmap hi', get_map_idx _ dirs j hmap' hj']
    exact ei.trans ej.symm
  have := List.nodup_iff_injective_get.mp hnd hgij
  exact congrArg Fin.val this

/-- C4 (amended): every Mapping Collection built by `from_project_name` from
a local directory listing whose names are pairwise distinct after
lower-casing, and any remote language listing, is unique by matched code:
for every code, at most one Mapping satisfies `matches_code`. -/
theorem c4_build_unique_by_code (projects : List (String × Nat))
    (sls : List ServerLanguage) (pname : String) (dirs : List String)
    (root : String) (fixes : List (String × String)) (mss : Mappings)
    (hnd : (dirs.map pyLower).Nodup)
    (hok : Mappings.from_project_name projects sls pname dirs root fixes = .ok mss) :
    UniqueByCode mss._mappings := by
  unfold Mappings.from_project_name at hok
  cases hp : project_name_to_id projects pname with
  | none => rw [hp] at hok; cases hok
  | some pid =>
    rw [hp] at hok
    cases hok
    exact foldl_add_server_unique sls _ (initial_unique hnd)

/-- C4 (counterexample): building from the local directory listing
`["en", "EN"]` — two distinct directories on a case-sensitive filesystem —
and an empty remote listing yields a collection in which two mappings match
the code `"en"`, so matched codes are not unique as claimed. -/
theorem c4_counterexample :
    (Mappings.from_project_name [("p", 1)] [] "p" ["en", "EN"] "r" []).toOption.map
      (fun mss => (mss._mappings.filter (fun m => m.matches_code "en")).length)
      = some 2 := by decide

/-- Witness for `c4_build_unique_by_code` at a concrete build. -/
theorem c4_witness :
    (["en", "fr"].map pyLower).Nodup ∧ UniqueByCode mssW._mappings :=
  ⟨by decide,
   c4_build_unique_by_code [("p", 1)] [⟨"en", "English", 50, 100⟩] "p"
     ["en", "fr"] "r" [] mssW (by decide) rfl⟩

/-- C5: `matches_code` is case- and separator-insensitive — every mapping
whose local code is `"pt_BR"` matches the codes `"pt-br"`, `"PT_BR"` and
`"pt_br"`, whatever its other fields. -/
theorem c5_matches_code_insensitive (m : Mapping) (h : m._local = some "pt_BR") :
    m.matches_code "pt-br" = true ∧ m.matches_code "PT_BR" = true
      ∧ m.matches_code "pt_br" = true := by
  refine ⟨?_, ?_, ?_⟩ <;>
    · unfold Mapping.matches_code
      rw [h]
      simp only [Bool.or_eq_true]
      exact Or.inl (by decide)

/-- Witness for `c5_matches_code_insensitive`. -/
theorem c5_witness :
    (Mapping.create_local "pt_BR")._local = some "pt_BR"
      ∧ ((Mapping.create_local "pt_BR").matches_code "pt-br" = true
        ∧ (Mapping.create_local "pt_BR").matches_code "PT_BR" = true
        ∧ (Mapping.create_local "pt_BR").matches_code "pt_br" = true) :=
  ⟨rfl, c5_matches_code_insensitive (Mapping.create_local "pt_BR") rfl⟩

/-- C3: with no reconciliation rules, the default transforms are mutually
inverse on the single-segment-suffix pair `pt_BR` / `pt-br`: any mapping with
local code `"pt_BR"` translates to remote `"pt-br"`, and any mapping with
remote code `"pt-br"` translates back to local `"pt_BR"`. -/
theorem c3_default_transform_inverse (m m' : Mapping)
    (h1 : m._local = some "pt_BR") (h2 : m'._server = some "pt-br") :
    m._local_to_server [] = some "pt-br"
      ∧ m'._server_to_local [] = some "pt_BR" := by
  constructor
  · unfold Mapping._local_to_server
    rw [h1]
    decide
  · unfold Mapping._server_to_local
    rw [h2]
    decide

/-- Witness for `c3_default_transform_inverse`. -/
theorem c3_witness :
    (Mapping.create_local "pt_BR")._local_to_server [] = some "pt-br"
      ∧ (Mapping.create_server "pt-br" "Portuguese (BR)")._server_to_local []
          = some "pt_BR" :=
  c3_default_transform_inverse (Mapping.create_local "pt_BR")
    (Mapping.create_server "pt-br" "Portuguese (BR)") rfl rfl

/-- C9: `sync_to_server` on a mapping with no (truthy) local code raises
(`.error`) for every world, project, root path and rules. -/
theorem c9_sync_to_raises (m : Mapping) (w : World) (pid : Nat)
    (pname root : String) (fixes : List (String × String))
    (h : truthyStr m._local = false) :
    m.sync_to_server w pid pname root fixes
      = .error "Cannot sync to server if language is not local" := by
  unfold Mapping.sync_to_server
  rw [h]
  rfl

/-- Witness for `c9_sync_to_raises`: a server-only mapping. -/
theorem c9_witness :
    (Mapping.create_server "es" "Spanish").sync_to_server
        { available_languages := [("Spanish", "es")], addable_codes := ["es"],
          existing_paths := [], export_result := fun _ _ => ("u", "f"),
          exports := [], added := [], uploads := [], deletes := [],
          renames := [], merges := [] } 1 "p" "r" []
      = .error "Cannot sync to server if language is not local" :=
  c9_sync_to_raises (Mapping.create_server "es" "Spanish") _ 1 "p" "r" [] rfl

/-- C8: `delete_on_server` is a no-op returning `false` when the remote code
is unset; when it is set, it issues exactly one remote delete call for that
code, clears `_server` and `_name`, returns `true`, and leaves `_local`
unchanged, so the mapping remains (demoted to local-only). -/
theorem c8_delete_on_server (m : Mapping) (w : World) (pid : Nat) :
    (truthyStr m._server = false → m.delete_on_server w pid = (false, m, w))
    ∧ (truthyStr m._server = true →
        (m.delete_on_server w pid).1 = true
        ∧ (m.delete_on_server w pid).2.1._server = none
        ∧ (m.delete_on_server w pid).2.1._name = none
        ∧ (m.delete_on_server w pid).2.1._local = m._local
        ∧ (m.delete_on_server w pid).2.2.deletes
            = w.deletes ++ [(pid, m._server.getD "")]) := by
  constructor
  · intro h
    unfold Mapping.delete_on_server
    rw [h]
    rfl
  · intro h
    unfold Mapping.delete_on_server
    rw [h]
    exact ⟨rfl, rfl, rfl, rfl, rfl⟩

/-- Witness for `c8_delete_on_server`: both branches at concrete mappings. -/
theorem c8_witness :
    ((Mapping.create_local "fr").delete_on_server
        { available_languages := [], addable_codes := [], existing_paths := [],
          export_result := fun _ _ => ("u", "f"), exports := [], added := [],
          uploads := [], deletes := [], renames := [], merges := [] } 3
      = (false, Mapping.create_local "fr",
          { available_languages := [], addable_codes := [], existing_paths := [],
            export_result := fun _ _ => ("u", "f"), exports := [], added := [],
            uploads := [], deletes := [], renames := [], merges := [] }))
    ∧ (((Mapping.create_server "es" "Spanish").delete_on_server
          { available_languages := [], addable_codes := [], existing_paths := [],
            export_result := fun _ _ => ("u", "f"), exports := [], added := [],
            uploads := [], deletes := [], renames := [], merges := [] } 3).1 = true
        ∧ ((Mapping.create_server "es" "Spanish").delete_on_server
          { available_languages := [], addable_codes := [], existing_paths := [],
            export_result := fun _ _ => ("u", "f"), exports := [], added := [],
            uploads := [], deletes := [], renames := [], merges := [] } 3).2.1._server = none) := by
  constructor
  · exact (c8_delete_on_server (Mapping.create_local "fr") _ 3).1 rfl
  · have h := (c8_delete_on_server (Mapping.create_server "es" "Spanish")
      { available_languages := [], addable_codes := [], existing_paths := [],
        export_result := fun _ _ => ("u", "f"), exports := [], added := [],
        uploads := [], deletes := [], renames := [], merges := [] } 3).2 rfl
    exact ⟨h.1, h.2.1⟩

/-- C10: a successful `delete_on_server` clears all four remote fields —
`set_server(None, None)` leaves the completion and timestamp defaults at
`None` as well. -/
theorem c10_delete_clears_all_remote (m : Mapping) (w : World) (pid : Nat)
    (h : truthyStr m._server = true) :
    (m.delete_on_server w pid).2.1._server = none
    ∧ (m.delete_on_server w pid).2.1._name = none
    ∧ (m.delete_on_server w pid).2.1._server_completed = none
    ∧ (m.delete_on_server w pid).2.1._server_updated = none := by
  unfold Mapping.delete_on_server
  rw [h]
  exact ⟨rfl, rfl, rfl, rfl⟩

/-- Witness for `c10_delete_clears_all_remote`: a fully populated remote
mapping. -/
theorem c10_witness :
    ((Mapping.create_local "pt_BR").set_server (some "pt-br") (some "Portuguese")
        (some 80) (some 7)).delete_on_server
        { available_languages := [], addable_codes := [], existing_paths := [],
          export_result := fun _ _ => ("u", "f"), exports := [], added := [],
          uploads := [], deletes := [], renames := [], merges := [] } 3
      |>.2.1._server = none := by
  exact (c10_delete_clears_all_remote
    ((Mapping.create_local "pt_BR").set_server (some "pt-br") (some "Portuguese")
      (some 80) (some 7))
    { available_languages := [], addable_codes := [], existing_paths := [],
      export_result := fun _ _ => ("u", "f"), exports := [], added := [],
      uploads := [], deletes := [], renames := [], merges := [] } 3 rfl).1

/-- C6: building from local directories `{en, fr}` and the remote listing
`[en, es]` yields exactly 3 mappings — `en` matched on both sides, `fr`
local-only, `es` remote-only — for either order of the directory scan. -/
theorem c6_build_example :
    Mappings.from_project_name [("p", 1)]
        [⟨"en", "English", 50, 100⟩, ⟨"es", "Spanish", 25, 200⟩] "p"
        ["en", "fr"] "r" []
      = .ok { _mappings :=
                [{ _local := some "en", _server := some "en",
                   _name := some "English", _server_completed := some 50,
                   _server_updated := some 100 },
                 Mapping.create_local "fr",
                 Mapping.create_server "es" "Spanish"],
              _project_name := "p", _project_id := 1,
              _language_root_path := "r", _fixes := [] }
    ∧ Mappings.from_project_name [("p", 1)]
        [⟨"en", "English", 50, 100⟩, ⟨"es", "Spanish", 25, 200⟩] "p"
        ["fr", "en"] "r" []
      = .ok { _mappings :=
                [Mapping.create_local "fr",
                 { _local := some "en", _server := some "en",
                   _name := some "English", _server_completed := some 50,
                   _server_updated := some 100 },
                 Mapping.create_server "es" "Spanish"],
              _project_name := "p", _project_id := 1,
              _language_root_path := "r", _fixes := [] } :=
  ⟨rfl, rfl⟩

/-- C1 (behavior at the failing input): with confirmation input `"nope"` for
project `"subdownloader"`, the bulk delete makes no remote calls and leaves
the world untouched, but returns `None` instead of an attempted-count of 0
with an empty failures list; the caller in `__main__` unpacks the result
into `nb_requested, fails` and therefore raises `TypeError`. -/
theorem c1_abort_returns_none :
    Mappings.delete_on_server mssDel wEmpty none "" "nope" = (none, wEmpty) := rfl

instance : IsTotal Mapping (fun a b => progressSortKey a ≤ progressSortKey b) :=
  ⟨fun _ _ => le_total _ _⟩

instance : IsTrans Mapping (fun a b => progressSortKey a ≤ progressSortKey b) :=
  ⟨fun _ _ _ h1 h2 => le_trans h1 h2⟩

/-- `pyStrLeChars` is total. -/
theorem pyStrLeChars_total : ∀ l1 l2 : List Char,
    pyStrLeChars l1 l2 = true ∨ pyStrLeChars l2 l1 = true := by
  intro l1
  induction l1 with
  | nil => intro l2; exact Or.inl rfl
  | cons a as ih =>
    intro l2
    cases l2 with
    | nil => exact Or.inr rfl
    | cons b bs =>
      by_cases h1 : a < b
      · exact Or.inl (by simp [pyStrLeChars, h1])
      · by_cases h2 : b < a
        · exact Or.inr (by simp [pyStrLeChars, h2])
        · rcases ih bs with h | h
          · exact Or.inl (by simp [pyStrLeChars, h1, h2, h])
          · exact Or.inr (by simp [pyStrLeChars, h1, h2, h])

/-- `pyStrLeChars` is transitive. -/
theorem pyStrLeChars_trans : ∀ l1 l2 l3 : List Char,
    pyStrLeChars l1 l2 = true → pyStrLeChars l2 l3 = true →
    pyStrLeChars l1 l3 = true := by
  intro l1
  induction l1 with
  | nil => intro l2 l3 _ _; rfl
  | cons a as ih =>
    intro l2 l3 h12 h23
    cases l2 with
    | nil => cases h12
    | cons b bs =>
      cases l3 with
      | nil => cases h23
      | cons c cs =>
        by_cases hab : a < b
        · by_cases hbc : b < c
          · simp [pyStrLeChars, lt_trans hab hbc]
          · by_cases hcb : c < b
            · simp [pyStrLeChars, hbc, hcb] at h23
            · have hbc' : b = c := le_antisymm (le_of_not_lt hcb) (le_of_not_lt hbc)
              subst hbc'
              simp [pyStrLeChars, hab]
        · by_cases hba : b < a
          · simp [pyStrLeChars, hab, hba] at h12
          · have hba' : a = b := le_antisymm (le_of_not_lt hba) (le_of_not_lt hab)
            subst hba'
            simp only [pyStrLeChars, if_neg hab, if_neg hba] at h12
            by_cases hac : a < c
            · simp [pyStrLeChars, hac]
            · by_cases hca : c < a
              · simp [pyStrLeChars, hac, hca] at h23
              · simp only [pyStrLeChars, if_neg hac, if_neg hca] at h23 ⊢
                exact ih bs cs h12 h23

instance : IsTotal Mapping (fun a b => pyStrLe (localSortKey a) (localSortKey b) = true) :=
  ⟨fun a b => pyStrLeChars_total (localSortKey a).data (localSortKey b).data⟩

instance : IsTrans Mapping (fun a b => pyStrLe (localSortKey a) (localSortKey b) = true) :=
  ⟨fun a b c h1 h2 =>
    pyStrLeChars_trans (localSortKey a).data (localSortKey b).data
      (localSortKey c).data h1 h2⟩

/-- C7 (amended): `select` with sort key `"p"` returns the selected mappings
in ascending order of completion (missing treated as `0.0`), and `"rl"`
returns them in descending order of local code (missing treated as `""`,
hence coming last, not first); both are permutations of the selection. -/
theorem c7_sort_orders (ms : List Mapping) (filt : Option (List String)) :
    ((Mappings.iter ms filt "p").Pairwise
        (fun a b => progressSortKey a ≤ progressSortKey b)
      ∧ (Mappings.iter ms filt "p").Perm (Mappings.select_mappings ms filt))
    ∧ ((Mappings.iter ms filt "rl").Pairwise
        (fun a b => pyStrLe (localSortKey b) (localSortKey a) = true)
      ∧ (Mappings.iter ms filt "rl").Perm (Mappings.select_mappings ms filt)) := by
  have hp : Mappings.iter ms filt "p"
      = List.insertionSort (fun a b => progressSortKey a ≤ progressSortKey b)
          (Mappings.select_mappings ms filt) := rfl
  have hrl : Mappings.iter ms filt "rl"
      = (List.insertionSort (fun a b => pyStrLe (localSortKey a) (localSortKey b) = true)
          (Mappings.select_mappings ms filt)).reverse := rfl
  refine ⟨⟨?_, ?_⟩, ?_, ?_⟩
  · rw [hp]
    exact List.sorted_insertionSort _ _
  · rw [hp]
    exact List.perm_insertionSort _ _
  · rw [hrl]
    exact List.pairwise_reverse.mpr (List.sorted_insertionSort _ _)
  · rw [hrl]
    exact (List.reverse_perm _).trans (List.perm_insertionSort _ _)

/-- C7 (counterexample): under `"rl"` the mapping with a missing local code
sorts as the empty string and therefore comes last in the descending order,
not first as the claim states. -/
theorem c7_counterexample :
    Mappings.iter [mAA, mNoLocal] none "rl" = [mAA, mNoLocal]
      ∧ (Mappings.iter [mAA, mNoLocal] none "rl").head? = some mAA
      ∧ mAA._local = some "aa" ∧ mNoLocal._local = none := by
  refine ⟨?_, ?_, rfl, rfl⟩ <;> decide

/-- The download loop attempts every mapping and returns exactly the failed
ones, in order, agreeing with the per-mapping outcome sequence. -/
theorem sync_from_loop_agrees (pid : Nat) (pname root : String)
    (fixes : List (String × String)) :
    ∀ (l : List Mapping) (w : World),
      BulkAgrees (sync_from_loop pid pname root fixes l w).1
        (sync_from_loop pid pname root fixes l w).2.1
        (sync_from_loop pid pname root fixes l w).2.2.1 l
        (runBoolOps (fun m w' => m.sync_from_server w' pid pname root fixes) l w) := by
  intro l
  induction l with
  | nil => intro w; exact ⟨rfl, rfl, rfl⟩
  | cons m rest ih =>
    intro w
    rcases hop : m.sync_from_server w pid pname root fixes with ⟨res, m', w'⟩
    have ih' := ih w'
    rcases hloop : sync_from_loop pid pname root fixes rest w' with ⟨nb, fails, ms', w''⟩
    rw [hloop] at ih'
    rcases ih' with ⟨ih1, ih2, ih3⟩
    simp only [sync_from_loop, runBoolOps, hop, hloop]
    refine ⟨by simpa using ih1, ?_, by simpa [List.map_cons] using ih3⟩
    cases res with
    | true => simpa [List.filter_cons] using ih2
    | false => simpa [List.filter_cons] using ih2

/-- The delete loop attempts every mapping and returns exactly the failed
ones, in order, agreeing with the per-mapping outcome sequence. -/
theorem delete_loop_agrees (pid : Nat) :
    ∀ (l : List Mapping) (w : World),
      BulkAgrees (delete_loop pid l w).1 (delete_loop pid l w).2.1
        (delete_loop pid l w).2.2.1 l
        (runBoolOps (fun m w' => m.delete_on_server w' pid) l w) := by
  intro l
  induction l with
  | nil => intro w; exact ⟨rfl, rfl, rfl⟩
  | cons m rest ih =>
    intro w
    rcases hop : m.delete_on_server w pid with ⟨res, m', w'⟩
    have ih' := ih w'
    rcases hloop : delete_loop pid rest w' with ⟨nb, fails, ms', w''⟩
    rw [hloop] at ih'
    rcases ih' with ⟨ih1, ih2, ih3⟩
    simp only [delete_loop, runBoolOps, hop, hloop]
    refine ⟨by simpa using ih1, ?_, by simpa [List.map_cons] using ih3⟩
    cases res with
    | true => simpa [List.filter_cons] using ih2
    | false => simpa [List.filter_cons] using ih2

/-- `sync_to_server` never raises on a mapping whose local code is truthy. -/
theorem sync_to_server_ok (m : Mapping) (w : World) (pid : Nat)
    (pname root : String) (fixes : List (String × String))
    (h : truthyStr m._local = true) :
    ∃ x, m.sync_to_server w pid pname root fixes = .ok x := by
  cases hr : m.sync_to_server w pid pname root fixes with
  | ok x => exact ⟨x, rfl⟩
  | error e =>
    exfalso
    unfold Mapping.sync_to_server at hr
    rw [h] at hr
    simp only [Bool.not_true, Bool.false_eq_true, if_false] at hr
    split at hr <;> cases hr

/-- The upload loop, when every selected mapping has a (truthy) local code,
never raises, attempts every mapping and agrees with the per-mapping outcome
sequence. -/
theorem sync_to_loop_agrees (pid : Nat) (pname root : String)
    (fixes : List (String × String)) :
    ∀ (l : List Mapping) (w : World),
      (∀ m ∈ l, truthyStr m._local = true) →
      BulkAgreesE (sync_to_loop pid pname root fixes l w) l
        (runExceptOps (fun m w' => m.sync_to_server w' pid pname root fixes) l w) := by
  intro l
  induction l with
  | nil => intro w _; exact ⟨rfl, rfl, rfl⟩
  | cons m rest ih =>
    intro w hall
    obtain ⟨⟨res, m', w'⟩, hop⟩ :=
      sync_to_server_ok m w pid pname root fixes (hall m (by simp))
    have ih' := ih w' (fun x hx => hall x (by simp [hx]))
    simp only [sync_to_loop, runExceptOps, hop]
    cases hloop : sync_to_loop pid pname root fixes rest w' with
    | error e =>
      cases hout : runExceptOps
          (fun m w' => m.sync_to_server w' pid pname root fixes) rest w' with
      | error e2 => rw [hloop, hout] at ih'; exact ih'.elim
      | ok os => rw [hloop, hout] at ih'; exact ih'.elim
    | ok t =>
      rcases t with ⟨nb, fails, ms', w2⟩
      cases hout : runExceptOps
          (fun m w' => m.sync_to_server w' pid pname root fixes) rest w' with
      | error e2 => rw [hloop, hout] at ih'; exact ih'.elim
      | ok os =>
        rw [hloop, hout] at ih'
        have ih2 : BulkAgrees nb fails ms' rest os := ih'
        rcases ih2 with ⟨iha, ihb, ihc⟩
        refine ⟨by simpa using iha, ?_, by simpa [List.map_cons] using ihc⟩
        cases res with
        | true => simpa [List.filter_cons] using ihb
        | false => simpa [List.filter_cons] using ihb

/-- C2 (amended): each bulk operation iterates the whole selection,
attempting every selected mapping and returning the attempted count together
with exactly the mappings whose per-mapping operation reported failure — for
`sync_all_from_server` unconditionally, for `sync_all_to_server` provided
every selected mapping has a local code (a remote-only selected mapping
raises and aborts the batch instead), and for `delete_all_on_server` once
the confirmation passes. -/
theorem c2_bulk_operations (mss : Mappings) (w : World)
    (filt : Option (List String)) (specs confirm : String) :
    (BulkAgrees (Mappings.sync_from_server mss w filt specs).1
        (Mappings.sync_from_server mss w filt specs).2.1
        (Mappings.sync_from_server mss w filt specs).2.2.1
        (Mappings.iter mss._mappings filt specs)
        (runBoolOps
          (fun m w' => m.sync_from_server w' mss._project_id mss._project_name
            mss._language_root_path mss._fixes)
          (Mappings.iter mss._mappings filt specs) w))
    ∧ ((∀ m ∈ Mappings.iter mss._mappings filt specs, truthyStr m._local = true) →
        BulkAgreesE (Mappings.sync_to_server mss w filt specs)
          (Mappings.iter mss._mappings filt specs)
          (runExceptOps
            (fun m w' => m.sync_to_server w' mss._project_id mss._project_name
              mss._language_root_path mss._fixes)
            (Mappings.iter mss._mappings filt specs) w))
    ∧ (pyLower confirm = mss._project_name →
        BulkAgreesO (Mappings.delete_on_server mss w filt specs confirm).1
          (Mappings.iter mss._mappings filt specs)
          (runBoolOps (fun m w' => m.delete_on_server w' mss._project_id)
            (Mappings.iter mss._mappings filt specs) w)) := by
  refine ⟨?_, ?_, ?_⟩
  · exact sync_from_loop_agrees mss._project_id mss._project_name
      mss._language_root_path mss._fixes (Mappings.iter mss._mappings filt specs) w
  · intro hall
    exact sync_to_loop_agrees mss._project_id mss._project_name
      mss._language_root_path mss._fixes (Mappings.iter mss._mappings filt specs) w hall
  · intro hc
    have hne : (pyLower confirm != mss._project_name) = false := by
      simp [hc]
    unfold Mappings.delete_on_server
    rw [hne]
    simp only [Bool.false_eq_true, if_false]
    rcases hloop : delete_loop mss._project_id
        (Mappings.iter mss._mappings filt specs) w with ⟨nb, fails, ms', w'⟩
    have h := delete_loop_agrees mss._project_id
      (Mappings.iter mss._mappings filt specs) w
    rw [hloop] at h
    exact h

/-- C2 (counterexample): with a remote-only mapping among the selection, the
bulk upload raises instead of returning an attempted count with a failures
list — the batch aborts mid-way on the upload contract violation. -/
theorem c2_counterexample :
    Mappings.sync_to_server mssC2 wEmpty none ""
      = .error "Cannot sync to server if language is not local" := rfl

/-- Witness for `c2_bulk_operations` at a concrete collection. -/
theorem c2_witness :
    BulkAgrees (Mappings.sync_from_server mssUp wEmpty none "").1
        (Mappings.sync_from_server mssUp wEmpty none "").2.1
        (Mappings.sync_from_server mssUp wEmpty none "").2.2.1
        (Mappings.iter mssUp._mappings none "")
        (runBoolOps
          (fun m w' => m.sync_from_server w' mssUp._project_id mssUp._project_name
            mssUp._language_root_path mssUp._fixes)
          (Mappings.iter mssUp._mappings none "") wEmpty)
      ∧ BulkAgreesE (Mappings.sync_to_server mssUp wEmpty none "")
          (Mappings.iter mssUp._mappings none "")
          (runExceptOps
            (fun m w' => m.sync_to_server w' mssUp._project_id mssUp._project_name
              mssUp._language_root_path mssUp._fixes)
            (Mappings.iter mssUp._mappings none "") wEmpty)
      ∧ BulkAgreesO (Mappings.delete_on_server mssUp wEmpty none "" "p").1
          (Mappings.iter mssUp._mappings none "")
          (runBoolOps (fun m w' => m.delete_on_server w' mssUp._project_id)
            (Mappings.iter mssUp._mappings none "") wEmpty) := by
  have h := c2_bulk_operations mssUp wEmpty none "" "p"
  exact ⟨h.1, h.2.1 (by decide), h.2.2 (by decide)⟩
